import Mathlib

/-!
Shallow embedding of `internal/codeintel/codenav/request_state.go`:
the request-scoped state container (`RequestState`) and its upload cache
(`UploadsDataLoader`), together with the construction wiring that binds
the hunk cache, git-tree translator and commit cache.

Go machine integers (`int`) are modelled as `Int`; Go `time.Time` values
as `Int` timestamps; Go pointer fields (`*time.Time`, `*string`, `*int`)
as `Option`; the Go map `map[int]shared.Dump` as a function
`Int → Option SharedDump`; Go slices as `List`.  Mutating methods become
functions returning the updated value; a method returning `error` returns
the updated value paired with `Option String`.
-/

/-- Go struct `dbstore.Dump`: the storage representation of an upload,
with the fields read by `AddUpload`. -/
structure DbstoreDump where
  ID : Int
  Commit : String
  Root : String
  VisibleAtTip : Bool
  UploadedAt : Int
  State : String
  FailureMessage : Option String
  StartedAt : Option Int
  FinishedAt : Option Int
  ProcessAfter : Option Int
  NumResets : Int
  NumFailures : Int
  RepositoryID : Int
  RepositoryName : String
  Indexer : String
  IndexerVersion : String
  AssociatedIndexID : Option Int
  deriving Repr, DecidableEq

/-- Go struct `shared.Dump`: the cached representation of an upload. -/
structure SharedDump where
  ID : Int
  Commit : String
  Root : String
  VisibleAtTip : Bool
  UploadedAt : Int
  State : String
  FailureMessage : Option String
  StartedAt : Option Int
  FinishedAt : Option Int
  ProcessAfter : Option Int
  NumResets : Int
  NumFailures : Int
  RepositoryID : Int
  RepositoryName : String
  Indexer : String
  IndexerVersion : String
  AssociatedIndexID : Option Int
  deriving Repr, DecidableEq

/-- The Go zero value `shared.Dump{}` (returned by out-of-range access and
by map lookup misses). -/
def SharedDump.zero : SharedDump :=
  { ID := 0, Commit := "", Root := "", VisibleAtTip := false, UploadedAt := 0,
    State := "", FailureMessage := none, StartedAt := none, FinishedAt := none,
    ProcessAfter := none, NumResets := 0, NumFailures := 0, RepositoryID := 0,
    RepositoryName := "", Indexer := "", IndexerVersion := "",
    AssociatedIndexID := none }

/-- The field-by-field translation `dbstore.Dump → shared.Dump` performed
inside `AddUpload`. -/
def toSharedDump (d : DbstoreDump) : SharedDump :=
  { ID := d.ID, Commit := d.Commit, Root := d.Root,
    VisibleAtTip := d.VisibleAtTip, UploadedAt := d.UploadedAt,
    State := d.State, FailureMessage := d.FailureMessage,
    StartedAt := d.StartedAt, FinishedAt := d.FinishedAt,
    ProcessAfter := d.ProcessAfter, NumResets := d.NumResets,
    NumFailures := d.NumFailures, RepositoryID := d.RepositoryID,
    RepositoryName := d.RepositoryName, Indexer := d.Indexer,
    IndexerVersion := d.IndexerVersion,
    AssociatedIndexID := d.AssociatedIndexID }

/-- Go struct `UploadsDataLoader`: the dual-indexed upload cache.  The
`sync.RWMutex` field has no observable sequential content and is omitted;
the map `uploadsByID` is modelled as a total function into `Option`. -/
structure UploadsDataLoader where
  uploads : List SharedDump
  uploadsByID : Int → Option SharedDump

/-- Go `NewUploadsDataLoader`: empty slice, empty map. -/
def NewUploadsDataLoader : UploadsDataLoader :=
  { uploads := [], uploadsByID := fun _ => none }

/-- Go `(*UploadsDataLoader).GetUploadFromCacheMap`: the two-valued map
read `upload, ok := l.uploadsByID[id]` (zero value and `false` on miss). -/
def UploadsDataLoader.GetUploadFromCacheMap (l : UploadsDataLoader) (id : Int) :
    SharedDump × Bool :=
  match l.uploadsByID id with
  | some u => (u, true)
  | none => (SharedDump.zero, false)

/-- Go `(*UploadsDataLoader).SetUploadInCacheMap`: the loop
`for i := range uploads { l.uploadsByID[uploads[i].ID] = uploads[i] }`. -/
def UploadsDataLoader.SetUploadInCacheMap (l : UploadsDataLoader)
    (uploads : List SharedDump) : UploadsDataLoader :=
  { l with
    uploadsByID :=
      uploads.foldl (fun m u => fun i => if i = u.ID then some u else m i)
        l.uploadsByID }

/-- Go `(*UploadsDataLoader).AddUpload`: translate the storage dump,
append it to `uploads` and overwrite the map entry for its identifier. -/
def UploadsDataLoader.AddUpload (l : UploadsDataLoader) (d : DbstoreDump) :
    UploadsDataLoader :=
  let dump := toSharedDump d
  { uploads := l.uploads ++ [dump],
    uploadsByID := fun i => if i = dump.ID then some dump else l.uploadsByID i }

/-- Opaque collaborator `authz.SubRepoPermissionChecker` (forwarded, never
interpreted). -/
structure SubRepoPermissionChecker where
  handle : Int
  deriving Repr, DecidableEq

/-- Opaque collaborator `gitserver.Client` (blob-fetch client). -/
structure GitserverClient where
  handle : Int
  deriving Repr, DecidableEq

/-- Opaque collaborator `shared.GitserverClient` (ancestry-query client). -/
structure SharedGitserverClient where
  handle : Int
  deriving Repr, DecidableEq

/-- Opaque collaborator `types.Repo` (only carried, never inspected). -/
structure Repo where
  id : Int
  deriving Repr, DecidableEq

/-- Modelled from the spec: the bounded hunk cache behind the position
translator; its definition (`NewHunkCache`) is outside this file's source.
Only its capacity is observable here. -/
structure HunkCache where
  size : Int
  deriving Repr, DecidableEq

/-- Modelled from the spec: `NewHunkCache` fails with a configuration
error exactly when the requested capacity is non-positive
(`hunkCacheSize ≤ 0` is a construction error), else yields a bounded
cache of that capacity. -/
def NewHunkCache (size : Int) : Except String HunkCache :=
  if size ≤ 0 then Except.error "must provide a positive size"
  else Except.ok { size := size }

/-- Go struct `requestArgs`: the (repo, commit, path) triple bound at
construction. -/
structure RequestArgs where
  repo : Repo
  commit : String
  path : String
  deriving Repr, DecidableEq

/-- Modelled from the spec: `NewGitTreeTranslator` bundles the blob-fetch
client, the bound (repo, commit, path) triple and the hunk cache; its
definition is outside this file's source. -/
structure GitTreeTranslator where
  client : GitserverClient
  args : RequestArgs
  hunkCache : HunkCache
  deriving Repr, DecidableEq

/-- Modelled from the spec: constructing the position-translation cache
from its three inputs. -/
def NewGitTreeTranslator (client : GitserverClient) (args : RequestArgs)
    (hunkCache : HunkCache) : GitTreeTranslator :=
  { client := client, args := args, hunkCache := hunkCache }

/-- Modelled from the spec: the commit-ancestry cache, backed by the
ancestry-query client; its definition (`newCommitCache`) is outside this
file's source. -/
structure CommitCache where
  client : SharedGitserverClient
  deriving Repr, DecidableEq

/-- Modelled from the spec: `newCommitCache` wraps the client. -/
def newCommitCache (client : SharedGitserverClient) : CommitCache :=
  { client := client }

/-- Go struct `RequestState`.  Fields that are `nil` in the Go zero value
before their setter runs are modelled as `Option`; the data loader pointer
starts as the empty loader (it is set before any accessor runs on every
construction path in the source). -/
structure RequestState where
  dataLoader : UploadsDataLoader
  GitTreeTranslator : Option GitTreeTranslator
  commitCache : Option CommitCache
  maximumIndexesPerMonikerSearch : Int
  authChecker : Option SubRepoPermissionChecker

/-- The Go zero value `&RequestState{}` at the top of `NewRequestState`. -/
def RequestState.empty : RequestState :=
  { dataLoader := NewUploadsDataLoader, GitTreeTranslator := none,
    commitCache := none, maximumIndexesPerMonikerSearch := 0,
    authChecker := none }

/-- Go `(*RequestState).GetCacheUploads`. -/
def RequestState.GetCacheUploads (r : RequestState) : List SharedDump :=
  r.dataLoader.uploads

/-- Go `(*RequestState).GetCacheUploadsAtIndex`: bounds-checked positional
access returning the zero `shared.Dump` out of range. -/
def RequestState.GetCacheUploadsAtIndex (r : RequestState) (index : Int) :
    SharedDump :=
  if index < 0 ∨ (r.dataLoader.uploads.length : Int) ≤ index then
    SharedDump.zero
  else
    r.dataLoader.uploads.getD index.toNat SharedDump.zero

/-- Go `(*RequestState).SetAuthChecker`. -/
def RequestState.SetAuthChecker (r : RequestState)
    (authChecker : SubRepoPermissionChecker) : RequestState :=
  { r with authChecker := some authChecker }

/-- Go `(*RequestState).SetUploadsDataLoader`: fresh loader, then
`AddUpload` for each supplied upload in order. -/
def RequestState.SetUploadsDataLoader (r : RequestState)
    (uploads : List DbstoreDump) : RequestState :=
  { r with
    dataLoader := uploads.foldl UploadsDataLoader.AddUpload NewUploadsDataLoader }

/-- Go `(*RequestState).SetLocalGitTreeTranslator`: builds the hunk cache,
returning the error (and leaving the translator unset) when that fails,
else installs the translator.  The returned `Option String` is the Go
`error` result. -/
def RequestState.SetLocalGitTreeTranslator (r : RequestState)
    (client : GitserverClient) (repo : Repo) (commit path : String)
    (hunkCacheSize : Int) : RequestState × Option String :=
  match NewHunkCache hunkCacheSize with
  | Except.error e => (r, some e)
  | Except.ok hunkCache =>
      ({ r with
          GitTreeTranslator :=
            some (NewGitTreeTranslator client
              { repo := repo, commit := commit, path := path } hunkCache) },
        none)

/-- Go `(*RequestState).SetLocalCommitCache`. -/
def RequestState.SetLocalCommitCache (r : RequestState)
    (client : SharedGitserverClient) : RequestState :=
  { r with commitCache := some (newCommitCache client) }

/-- Go `(*RequestState).SetMaximumIndexesPerMonikerSearch`: stores the
bound verbatim, with no validation. -/
def RequestState.SetMaximumIndexesPerMonikerSearch (r : RequestState)
    (maxNumber : Int) : RequestState :=
  { r with maximumIndexesPerMonikerSearch := maxNumber }

/-- Go `NewRequestState`: runs the five setters in source order.  The
`error` returned by `SetLocalGitTreeTranslator` is discarded (the Go call
ignores the return value), and the state is returned unconditionally. -/
def NewRequestState (uploads : List DbstoreDump)
    (authChecker : SubRepoPermissionChecker) (client : GitserverClient)
    (repo : Repo) (commit path : String)
    (gitclient : SharedGitserverClient) (maxIndexes hunkCacheSize : Int) :
    RequestState :=
  let r := RequestState.empty
  let r := r.SetUploadsDataLoader uploads
  let r := r.SetAuthChecker authChecker
  let r := (r.SetLocalGitTreeTranslator client repo commit path hunkCacheSize).1
  let r := r.SetLocalCommitCache gitclient
  let r := r.SetMaximumIndexesPerMonikerSearch maxIndexes
  r

/-!
Mutation traces over the upload cache.  A `CacheOp` is one public
mutation: `insert` is `AddUpload` (single upload, storage shape),
`refresh` is `SetUploadInCacheMap` (bulk, cache shape).
-/

/-- One mutation of the upload cache. -/
inductive CacheOp where
  | insert (d : DbstoreDump)
  | refresh (uploads : List SharedDump)
  deriving Repr, DecidableEq

/-- Apply one mutation. -/
def UploadsDataLoader.applyOp (l : UploadsDataLoader) : CacheOp → UploadsDataLoader
  | CacheOp.insert d => l.AddUpload d
  | CacheOp.refresh us => l.SetUploadInCacheMap us

/-- Run a trace of mutations from the freshly constructed loader. -/
def applyOps (ops : List CacheOp) : UploadsDataLoader :=
  ops.foldl UploadsDataLoader.applyOp NewUploadsDataLoader

/-- The map writes performed by one mutation, in program order. -/
def CacheOp.writes : CacheOp → List SharedDump
  | CacheOp.insert d => [toSharedDump d]
  | CacheOp.refresh us => us

/-- Left-biased-on-`some` choice: `overlay a b` is `a` unless `a` is
`none`.  Used to express that later map writes shadow earlier ones. -/
def overlay (a b : Option SharedDump) : Option SharedDump :=
  match a with
  | some u => some u
  | none => b

/-- The last element of `us` whose identifier is `id`, if any (later
elements shadow earlier ones). -/
def lastWith (id : Int) : List SharedDump → Option SharedDump
  | [] => none
  | u :: us => overlay (lastWith id us) (if id = u.ID then some u else none)

/-- The value most recently written to key `id` by the trace `ops`
(by either an insert or a refresh), if any.  The head of the list is the
earliest mutation. -/
def lastWritten : List CacheOp → Int → Option SharedDump
  | [], _ => none
  | op :: ops, id => overlay (lastWritten ops id) (lastWith id op.writes)

/-- The uploads appended to the ordered sequence by the trace `ops`, in
order (inserts only: refresh never touches the sequence). -/
def insertedOf : List CacheOp → List SharedDump
  | [] => []
  | CacheOp.insert d :: ops => toSharedDump d :: insertedOf ops
  | CacheOp.refresh _ :: ops => insertedOf ops

/-- Insert a list of storage dumps one by one (`AddUpload` in a loop, as
`SetUploadsDataLoader` does). -/
def insertAll (l : UploadsDataLoader) (ds : List DbstoreDump) : UploadsDataLoader :=
  ds.foldl UploadsDataLoader.AddUpload l

theorem overlay_none_right (a : Option SharedDump) : overlay a none = a := by
  cases a <;> rfl

theorem overlay_assoc (a b c : Option SharedDump) :
    overlay a (overlay b c) = overlay (overlay a b) c := by
  cases a <;> cases b <;> rfl

theorem overlay_isSome_left (a b : Option SharedDump) (h : a.isSome = true) :
    (overlay a b).isSome = true := by
  cases a with
  | none => simp at h
  | some u => rfl

theorem overlay_isSome_right (a b : Option SharedDump) (h : b.isSome = true) :
    (overlay a b).isSome = true := by
  cases a with
  | none => simpa [overlay] using h
  | some u => rfl

/-- What the write loop of `SetUploadInCacheMap` does to the map at one
key: the last matching element of `uploads` shadows the prior content. -/
theorem setUploadInCacheMap_byID (us : List SharedDump)
    (l : UploadsDataLoader) (id : Int) :
    (l.SetUploadInCacheMap us).uploadsByID id
      = overlay (lastWith id us) (l.uploadsByID id) := by
  induction us generalizing l with
  | nil => rfl
  | cons u us ih =>
      have step :
          (l.SetUploadInCacheMap (u :: us)).uploadsByID id
            = (UploadsDataLoader.SetUploadInCacheMap
                { l with uploadsByID := fun i => if i = u.ID then some u else l.uploadsByID i }
                us).uploadsByID id := rfl
      rw [step, ih]
      show overlay (lastWith id us) (if id = u.ID then some u else l.uploadsByID id)
        = overlay (overlay (lastWith id us) (if id = u.ID then some u else none))
            (l.uploadsByID id)
      cases h : lastWith id us with
      | some v => rfl
      | none =>
          by_cases hid : id = u.ID <;> simp [overlay, hid]

/-- `SetUploadInCacheMap` never touches the ordered sequence. -/
theorem setUploadInCacheMap_uploads (us : List SharedDump)
    (l : UploadsDataLoader) :
    (l.SetUploadInCacheMap us).uploads = l.uploads := by
  induction us generalizing l with
  | nil => rfl
  | cons u us ih =>
      exact ih { l with uploadsByID := fun i => if i = u.ID then some u else l.uploadsByID i }

/-- `AddUpload` at one map key. -/
theorem addUpload_byID (d : DbstoreDump) (l : UploadsDataLoader) (id : Int) :
    (l.AddUpload d).uploadsByID id
      = overlay (lastWith id [toSharedDump d]) (l.uploadsByID id) := by
  show (if id = (toSharedDump d).ID then some (toSharedDump d) else l.uploadsByID id)
    = overlay (overlay none (if id = (toSharedDump d).ID then some (toSharedDump d) else none))
        (l.uploadsByID id)
  by_cases hid : id = (toSharedDump d).ID <;> simp [overlay, hid]

/-- One mutation at one map key. -/
theorem applyOp_byID (op : CacheOp) (l : UploadsDataLoader) (id : Int) :
    (l.applyOp op).uploadsByID id
      = overlay (lastWith id op.writes) (l.uploadsByID id) := by
  cases op with
  | insert d => exact addUpload_byID d l id
  | refresh us => exact setUploadInCacheMap_byID us l id

/-- One mutation's effect on the ordered sequence. -/
theorem applyOp_uploads (op : CacheOp) (l : UploadsDataLoader) :
    (l.applyOp op).uploads = l.uploads ++ insertedOf [op] := by
  cases op with
  | insert d => rfl
  | refresh us =>
      show (l.SetUploadInCacheMap us).uploads = l.uploads ++ []
      rw [setUploadInCacheMap_uploads, List.append_nil]

/-- The map after a trace, at one key, over an arbitrary start state. -/
theorem foldl_applyOp_byID (ops : List CacheOp) (l : UploadsDataLoader) (id : Int) :
    (ops.foldl UploadsDataLoader.applyOp l).uploadsByID id
      = overlay (lastWritten ops id) (l.uploadsByID id) := by
  induction ops generalizing l with
  | nil => rfl
  | cons op ops ih =>
      rw [List.foldl_cons, ih, applyOp_byID, overlay_assoc]
      rfl

/-- The ordered sequence after a trace, over an arbitrary start state. -/
theorem foldl_applyOp_uploads (ops : List CacheOp) (l : UploadsDataLoader) :
    (ops.foldl UploadsDataLoader.applyOp l).uploads = l.uploads ++ insertedOf ops := by
  induction ops generalizing l with
  | nil => simp [insertedOf]
  | cons op ops ih =>
      rw [List.foldl_cons, ih, applyOp_uploads]
      cases op with
      | insert d => simp [insertedOf]
      | refresh us => simp [insertedOf]

theorem overlay_isSome (a b : Option SharedDump) :
    (overlay a b).isSome = (a.isSome || b.isSome) := by
  cases a <;> simp [overlay]

/-- `lastWith` finds an element exactly when one with the identifier is
in the list. -/
theorem lastWith_isSome_iff (id : Int) (us : List SharedDump) :
    (lastWith id us).isSome = true ↔ ∃ u ∈ us, u.ID = id := by
  induction us with
  | nil => simp [lastWith]
  | cons u us ih =>
      constructor
      · intro h
        rw [lastWith, overlay_isSome] at h
        simp only [Bool.or_eq_true] at h
        rcases h with h1 | h2
        · obtain ⟨v, hv, hid⟩ := ih.1 h1
          exact ⟨v, List.mem_cons_of_mem _ hv, hid⟩
        · by_cases hid : id = u.ID
          · exact ⟨u, List.mem_cons_self u us, hid.symm⟩
          · rw [if_neg hid] at h2
            simp at h2
      · rintro ⟨v, hv, hid⟩
        rw [lastWith, overlay_isSome]
        simp only [Bool.or_eq_true]
        rcases List.mem_cons.1 hv with rfl | hv'
        · refine Or.inr ?_
          rw [if_pos hid.symm]
          rfl
        · exact Or.inl (ih.2 ⟨v, hv', hid⟩)

/-- When no element of `us` has the identifier, `lastWith` is `none`. -/
theorem lastWith_eq_none_of_not_mem (id : Int) (us : List SharedDump)
    (h : id ∉ us.map SharedDump.ID) : lastWith id us = none := by
  induction us with
  | nil => rfl
  | cons u us ih =>
      rw [List.map_cons, List.mem_cons] at h
      push_neg at h
      show overlay (lastWith id us) (if id = u.ID then some u else none) = none
      rw [ih h.2, if_neg h.1]
      rfl

/-- Any identifier appearing in the inserted part of a trace has been
written. -/
theorem mem_insertedOf_lastWritten (ops : List CacheOp) (id : Int)
    (h : id ∈ (insertedOf ops).map SharedDump.ID) :
    (lastWritten ops id).isSome = true := by
  induction ops with
  | nil => simp [insertedOf] at h
  | cons op ops ih =>
      cases op with
      | insert d =>
          have h' : id ∈ ((toSharedDump d :: insertedOf ops).map SharedDump.ID) := h
          rw [List.map_cons, List.mem_cons] at h'
          show (overlay (lastWritten ops id)
            (lastWith id (CacheOp.insert d).writes)).isSome = true
          rcases h' with h1 | h2
          · apply overlay_isSome_right
            simp [CacheOp.writes, lastWith, overlay, h1]
          · exact overlay_isSome_left _ _ (ih h2)
      | refresh us =>
          show (overlay (lastWritten ops id)
            (lastWith id (CacheOp.refresh us).writes)).isSome = true
          exact overlay_isSome_left _ _ (ih h)

/-- `AddUpload` in a loop appends the translated dumps in order. -/
theorem insertAll_uploads (ds : List DbstoreDump) (l : UploadsDataLoader) :
    (insertAll l ds).uploads = l.uploads ++ ds.map toSharedDump := by
  induction ds generalizing l with
  | nil => simp [insertAll]
  | cons d ds ih =>
      show (insertAll (l.AddUpload d) ds).uploads = _
      rw [ih]
      simp [UploadsDataLoader.AddUpload]

/-- `AddUpload` in a loop, at one map key: last insert with the key wins. -/
theorem insertAll_byID (ds : List DbstoreDump) (l : UploadsDataLoader) (id : Int) :
    (insertAll l ds).uploadsByID id
      = overlay (lastWith id (ds.map toSharedDump)) (l.uploadsByID id) := by
  induction ds generalizing l with
  | nil => rfl
  | cons d ds ih =>
      show (insertAll (l.AddUpload d) ds).uploadsByID id = _
      rw [ih, addUpload_byID, overlay_assoc]
      rfl

/-- What each field of the state returned by `NewRequestState` is, by the
source's setter chain; in particular the translator is set iff
`NewHunkCache` succeeded, and the error is nowhere in the result. -/
theorem newRequestState_fields (uploads : List DbstoreDump)
    (a : SubRepoPermissionChecker) (c : GitserverClient) (repo : Repo)
    (commit path : String) (g : SharedGitserverClient) (mi hc : Int) :
    (NewRequestState uploads a c repo commit path g mi hc).dataLoader
        = insertAll NewUploadsDataLoader uploads
    ∧ (NewRequestState uploads a c repo commit path g mi hc).authChecker = some a
    ∧ (NewRequestState uploads a c repo commit path g mi hc).commitCache
        = some (newCommitCache g)
    ∧ (NewRequestState uploads a c repo commit path g mi hc).maximumIndexesPerMonikerSearch
        = mi
    ∧ (NewRequestState uploads a c repo commit path g mi hc).GitTreeTranslator
        = (match NewHunkCache hc with
            | Except.error _ => none
            | Except.ok hcache =>
                some (NewGitTreeTranslator c
                  { repo := repo, commit := commit, path := path } hcache)) := by
  cases hh : NewHunkCache hc with
  | error e =>
      refine ⟨?_, ?_, ?_, ?_, ?_⟩ <;>
        simp [NewRequestState, RequestState.SetUploadsDataLoader,
          RequestState.SetAuthChecker, RequestState.SetLocalGitTreeTranslator,
          RequestState.SetLocalCommitCache,
          RequestState.SetMaximumIndexesPerMonikerSearch, RequestState.empty,
          insertAll, hh]
  | ok hcache =>
      refine ⟨?_, ?_, ?_, ?_, ?_⟩ <;>
        simp [NewRequestState, RequestState.SetUploadsDataLoader,
          RequestState.SetAuthChecker, RequestState.SetLocalGitTreeTranslator,
          RequestState.SetLocalCommitCache,
          RequestState.SetMaximumIndexesPerMonikerSearch, RequestState.empty,
          insertAll, hh]

/-- A concrete storage upload used in the worked examples. -/
def exD1 : DbstoreDump :=
  { ID := 1, Commit := "c1", Root := "r1/", VisibleAtTip := true,
    UploadedAt := 100, State := "completed", FailureMessage := none,
    StartedAt := some 90, FinishedAt := some 95, ProcessAfter := none,
    NumResets := 0, NumFailures := 0, RepositoryID := 42,
    RepositoryName := "repo", Indexer := "scip-go", IndexerVersion := "0.1",
    AssociatedIndexID := some 7 }

/-- A second concrete storage upload, with identifier 2. -/
def exD2 : DbstoreDump :=
  { exD1 with ID := 2, Commit := "c2" }

/-- A refreshed cache-shape upload sharing identifier 1 with `exD1` but
differing in content. -/
def exRefreshDump : SharedDump :=
  { toSharedDump exD1 with Commit := "c9" }

/-- Concrete opaque collaborators for the worked examples. -/
def exAuth : SubRepoPermissionChecker := { handle := 1 }

/-- Concrete blob-fetch client. -/
def exClient : GitserverClient := { handle := 2 }

/-- Concrete ancestry-query client. -/
def exGit : SharedGitserverClient := { handle := 3 }

/-- Concrete repository handle. -/
def exRepo : Repo := { id := 42 }

/-- The request scope of the end-to-end example: uploads `[exD1, exD2]`,
`maxIndexes = 50`, `hunkCacheSize = 100`. -/
def exRS : RequestState :=
  NewRequestState [exD1, exD2] exAuth exClient exRepo "deadbeef" "a/b.go"
    exGit 50 100

/-- A loader whose single cached upload is the zero-valued dump. -/
def zeroLoader : UploadsDataLoader :=
  { uploads := [SharedDump.zero],
    uploadsByID := fun i => if i = 0 then some SharedDump.zero else none }

/-- A request state holding `zeroLoader`. -/
def zeroRS : RequestState :=
  { RequestState.empty with dataLoader := zeroLoader }

/-- C2 counterexample: the claimed invariant fails after a refresh.
Insert `exD1` (identifier 1), then refresh with `exRefreshDump` (same
identifier, different commit): identifier 1 is present in the ordered
sequence, yet the mapping entry for 1 is the refreshed value, not the most
recently inserted upload with identifier 1. -/
theorem uploadCache_byID_not_lastInserted_cex :
    ¬ (∀ (ops : List CacheOp) (id : Int),
        id ∈ (applyOps ops).uploads.map SharedDump.ID →
          (applyOps ops).uploadsByID id = lastWith id (insertedOf ops)) := by
  intro h
  have hx := h [CacheOp.insert exD1, CacheOp.refresh [exRefreshDump]] 1 (by decide)
  exact absurd hx (by decide)

/-- C2 (amended): after any trace of mutations, the mapping's entry for
every identifier equals the most recent write of that identifier —
whether it came from an insert or from a refresh — and every identifier
present in the ordered sequence has an entry in the mapping. -/
theorem uploadCache_byID_eq_lastWritten (ops : List CacheOp) (id : Int) :
    (applyOps ops).uploadsByID id = lastWritten ops id
    ∧ (id ∈ (applyOps ops).uploads.map SharedDump.ID →
        ((applyOps ops).uploadsByID id).isSome = true) := by
  have hb : (applyOps ops).uploadsByID id = lastWritten ops id := by
    show (ops.foldl UploadsDataLoader.applyOp NewUploadsDataLoader).uploadsByID id = _
    rw [foldl_applyOp_byID]
    exact overlay_none_right _
  refine ⟨hb, ?_⟩
  intro hmem
  have hmem' : id ∈ (insertedOf ops).map SharedDump.ID := by
    have hseq : (applyOps ops).uploads = insertedOf ops := by
      show (ops.foldl UploadsDataLoader.applyOp NewUploadsDataLoader).uploads = _
      rw [foldl_applyOp_uploads]
      rfl
    rwa [hseq] at hmem
  rw [hb]
  exact mem_insertedOf_lastWritten ops id hmem'

/-- C2 amended witness at a concrete trace: after inserting `exD1` and
refreshing with `exRefreshDump`, the mapping entry for identifier 1 is
the most recent write, namely the refreshed value. -/
theorem uploadCache_byID_eq_lastWritten_witness :
    (applyOps [CacheOp.insert exD1, CacheOp.refresh [exRefreshDump]]).uploadsByID 1
        = lastWritten [CacheOp.insert exD1, CacheOp.refresh [exRefreshDump]] 1
    ∧ ((applyOps [CacheOp.insert exD1,
          CacheOp.refresh [exRefreshDump]]).uploadsByID 1).isSome = true :=
  ⟨(uploadCache_byID_eq_lastWritten
      [CacheOp.insert exD1, CacheOp.refresh [exRefreshDump]] 1).1,
   (uploadCache_byID_eq_lastWritten
      [CacheOp.insert exD1, CacheOp.refresh [exRefreshDump]] 1).2 (by decide)⟩

/-- C3: for every sequence of `AddUpload` calls starting from the fresh
loader, the ordered sequence is exactly the translated inserts in call
order (so its length is the number of calls, duplicates retained), and
`GetUploadFromCacheMap` returns the most recently inserted upload with
the queried identifier together with `found = true`, or the zero dump
with `found = false` when no inserted upload had that identifier. -/
theorem insert_lookup_lastWriteWins (ds : List DbstoreDump) (id : Int) :
    (insertAll NewUploadsDataLoader ds).uploads = ds.map toSharedDump
    ∧ (insertAll NewUploadsDataLoader ds).uploads.length = ds.length
    ∧ (insertAll NewUploadsDataLoader ds).GetUploadFromCacheMap id
        = ((lastWith id (ds.map toSharedDump)).getD SharedDump.zero,
            (lastWith id (ds.map toSharedDump)).isSome)
    ∧ ((lastWith id (ds.map toSharedDump)).isSome = true ↔ ∃ d ∈ ds, d.ID = id) := by
  have hu : (insertAll NewUploadsDataLoader ds).uploads = ds.map toSharedDump := by
    rw [insertAll_uploads]
    rfl
  have hb : (insertAll NewUploadsDataLoader ds).uploadsByID id
      = lastWith id (ds.map toSharedDump) := by
    rw [insertAll_byID]
    exact overlay_none_right _
  refine ⟨hu, by rw [hu]; simp, ?_, ?_⟩
  · unfold UploadsDataLoader.GetUploadFromCacheMap
    rw [hb]
    cases lastWith id (ds.map toSharedDump) <;> rfl
  · rw [lastWith_isSome_iff]
    constructor
    · rintro ⟨u, hu', hid⟩
      rcases List.mem_map.1 hu' with ⟨d, hd, rfl⟩
      exact ⟨d, hd, hid⟩
    · rintro ⟨d, hd, hid⟩
      exact ⟨toSharedDump d, List.mem_map_of_mem _ hd, hid⟩

/-- C3 witness: inserting `exD1` then `exD2`, the sequence has length 2
and looking up identifier 2 finds the translation of `exD2`. -/
theorem insert_lookup_lastWriteWins_witness :
    (insertAll NewUploadsDataLoader [exD1, exD2]).uploads.length = 2
    ∧ (insertAll NewUploadsDataLoader [exD1, exD2]).GetUploadFromCacheMap 2
        = (toSharedDump exD2, true) := by
  have h := insert_lookup_lastWriteWins [exD1, exD2] 2
  refine ⟨by rw [h.2.1]; rfl, ?_⟩
  rw [h.2.2.1]
  decide

/-- C5: a refresh (`SetUploadInCacheMap`) leaves the ordered sequence
unchanged; at every key the mapping becomes the last refreshed value with
that identifier, falling back to the old entry; keys absent from the
refresh set are untouched; and no existing entry is ever removed. -/
theorem setUploadInCacheMap_frame (l : UploadsDataLoader)
    (us : List SharedDump) (id : Int) :
    (l.SetUploadInCacheMap us).uploads = l.uploads
    ∧ (l.SetUploadInCacheMap us).uploadsByID id
        = overlay (lastWith id us) (l.uploadsByID id)
    ∧ (id ∉ us.map SharedDump.ID →
        (l.SetUploadInCacheMap us).uploadsByID id = l.uploadsByID id)
    ∧ ((l.uploadsByID id).isSome = true →
        ((l.SetUploadInCacheMap us).uploadsByID id).isSome = true) := by
  refine ⟨setUploadInCacheMap_uploads us l, setUploadInCacheMap_byID us l id, ?_, ?_⟩
  · intro hnot
    rw [setUploadInCacheMap_byID, lastWith_eq_none_of_not_mem id us hnot]
    rfl
  · intro hsome
    rw [setUploadInCacheMap_byID]
    exact overlay_isSome_right _ _ hsome

/-- C5 witness: refreshing the loader that holds `exD1` with
`exRefreshDump` leaves the sequence unchanged and does not touch the
entry for the absent identifier 5. -/
theorem setUploadInCacheMap_frame_witness :
    ((insertAll NewUploadsDataLoader [exD1]).SetUploadInCacheMap
        [exRefreshDump]).uploads = (insertAll NewUploadsDataLoader [exD1]).uploads
    ∧ ((insertAll NewUploadsDataLoader [exD1]).SetUploadInCacheMap
        [exRefreshDump]).uploadsByID 5
        = (insertAll NewUploadsDataLoader [exD1]).uploadsByID 5 :=
  ⟨(setUploadInCacheMap_frame (insertAll NewUploadsDataLoader [exD1])
      [exRefreshDump] 5).1,
   (setUploadInCacheMap_frame (insertAll NewUploadsDataLoader [exD1])
      [exRefreshDump] 5).2.2.1 (by decide)⟩

/-- C1 counterexample: calling `NewRequestState` with `hunkCacheSize = 0`
does not fail — the sub-step's error stays inside `NewRequestState`
(whose caller receives no error channel at all) and a partially
initialized scope is returned: uploads loaded, auth checker, commit cache
and moniker bound set, but the translator missing. -/
theorem newRequestState_discards_hunkCache_error_cex :
    (RequestState.empty.SetLocalGitTreeTranslator exClient exRepo "c" "p" 0).2
        = some "must provide a positive size"
    ∧ (NewRequestState [exD1] exAuth exClient exRepo "c" "p" exGit 50 0).GitTreeTranslator
        = none
    ∧ (NewRequestState [exD1] exAuth exClient exRepo "c" "p" exGit 50 0).GetCacheUploads
        = [toSharedDump exD1]
    ∧ (NewRequestState [exD1] exAuth exClient exRepo "c" "p" exGit 50 0).maximumIndexesPerMonikerSearch
        = 50
    ∧ (NewRequestState [exD1] exAuth exClient exRepo "c" "p" exGit 50 0).authChecker
        = some exAuth
    ∧ (NewRequestState [exD1] exAuth exClient exRepo "c" "p" exGit 50 0).commitCache
        = some (newCommitCache exGit) := by
  refine ⟨rfl, ?_, ?_, ?_, ?_, ?_⟩ <;> decide

/-- C1 (amended): with a non-positive hunk-cache size,
`SetLocalGitTreeTranslator` does return a configuration error and leaves
the state untouched (no translator installed); but `NewRequestState`
discards that error and still returns a scope whose translator field is
unset — the failure is not propagated to the caller of construction. -/
theorem setLocalGitTreeTranslator_error_not_propagated
    (r : RequestState) (client : GitserverClient) (repo : Repo)
    (commit path : String) (hunkCacheSize : Int) (h : hunkCacheSize ≤ 0) :
    ((r.SetLocalGitTreeTranslator client repo commit path hunkCacheSize).2).isSome
        = true
    ∧ (r.SetLocalGitTreeTranslator client repo commit path hunkCacheSize).1 = r
    ∧ ∀ (uploads : List DbstoreDump) (a : SubRepoPermissionChecker)
        (g : SharedGitserverClient) (mi : Int),
        (NewRequestState uploads a client repo commit path g mi hunkCacheSize).GitTreeTranslator
          = none := by
  have hh : NewHunkCache hunkCacheSize
      = Except.error "must provide a positive size" := by
    unfold NewHunkCache
    rw [if_pos h]
  refine ⟨?_, ?_, ?_⟩
  · simp [RequestState.SetLocalGitTreeTranslator, hh]
  · simp [RequestState.SetLocalGitTreeTranslator, hh]
  · intro uploads a g mi
    have hf := (newRequestState_fields uploads a client repo commit path g mi
      hunkCacheSize).2.2.2.2
    rw [hf, hh]

/-- C1 amended witness at `hunkCacheSize = 0`. -/
theorem setLocalGitTreeTranslator_error_not_propagated_witness :
    ((RequestState.empty.SetLocalGitTreeTranslator exClient exRepo "c" "p" 0).2).isSome
        = true
    ∧ (RequestState.empty.SetLocalGitTreeTranslator exClient exRepo "c" "p" 0).1
        = RequestState.empty
    ∧ (NewRequestState [] exAuth exClient exRepo "c" "p" exGit 7 0).GitTreeTranslator
        = none := by
  have h := setLocalGitTreeTranslator_error_not_propagated RequestState.empty
    exClient exRepo "c" "p" 0 (by decide)
  exact ⟨h.1, h.2.1, h.2.2 [] exAuth exGit 7⟩

/-- C4: positional access is bounds-checked: for `0 ≤ n < length` it
returns the `n`-th cached upload, and for every other integer `n`
(negative or `≥ length`) it returns the zero dump. -/
theorem getCacheUploadsAtIndex_boundsChecked (r : RequestState) (n : Int) :
    (∀ (h0 : 0 ≤ n) (h1 : n < (r.dataLoader.uploads.length : Int)),
        r.GetCacheUploadsAtIndex n
          = r.dataLoader.uploads.get ⟨n.toNat, by omega⟩)
    ∧ ((n < 0 ∨ (r.dataLoader.uploads.length : Int) ≤ n) →
        r.GetCacheUploadsAtIndex n = SharedDump.zero) := by
  constructor
  · intro h0 h1
    simp only [RequestState.GetCacheUploadsAtIndex]
    rw [if_neg (by omega)]
    have hlt : n.toNat < r.dataLoader.uploads.length := by omega
    rw [List.getD_eq_getElem _ _ hlt]
    rfl
  · intro h
    simp only [RequestState.GetCacheUploadsAtIndex]
    rw [if_pos h]

/-- C4 witness: on the example scope, index 0 is the first cached upload
and index -1 is out of range. -/
theorem getCacheUploadsAtIndex_boundsChecked_witness :
    exRS.GetCacheUploadsAtIndex 0 = exRS.dataLoader.uploads.get ⟨0, by decide⟩
    ∧ exRS.GetCacheUploadsAtIndex (-1) = SharedDump.zero :=
  ⟨(getCacheUploadsAtIndex_boundsChecked exRS 0).1 (by decide) (by decide),
   (getCacheUploadsAtIndex_boundsChecked exRS (-1)).2 (Or.inl (by decide))⟩

/-- C6: the scope's ordered view enumerates the uploads supplied to
construction, translated, in the supplied order; and the end-to-end
example (`[exD1, exD2]`, `maxIndexes = 50`, `hunkCacheSize = 100`)
behaves as specified for `All`, `At(0)`, `At(5)`, `Lookup(2)` and
`Lookup(99)`. -/
theorem getCacheUploads_order_and_example :
    (∀ (uploads : List DbstoreDump) (a : SubRepoPermissionChecker)
        (c : GitserverClient) (repo : Repo) (commit path : String)
        (g : SharedGitserverClient) (mi hc : Int),
        (NewRequestState uploads a c repo commit path g mi hc).GetCacheUploads
          = uploads.map toSharedDump)
    ∧ exRS.GetCacheUploads = [toSharedDump exD1, toSharedDump exD2]
    ∧ exRS.GetCacheUploadsAtIndex 0 = toSharedDump exD1
    ∧ exRS.GetCacheUploadsAtIndex 5 = SharedDump.zero
    ∧ exRS.dataLoader.GetUploadFromCacheMap 2 = (toSharedDump exD2, true)
    ∧ (exRS.dataLoader.GetUploadFromCacheMap 99).2 = false := by
  refine ⟨?_, by decide, by decide, by decide, by decide, by decide⟩
  intro uploads a c repo commit path g mi hc
  show (NewRequestState uploads a c repo commit path g mi hc).dataLoader.uploads = _
  rw [(newRequestState_fields uploads a c repo commit path g mi hc).1,
    insertAll_uploads]
  rfl

/-- C7: the translation applied at insertion carries every attribute of
the storage dump over to the cached dump unchanged — identifier, commit,
root, visibility flag, all four lifecycle timestamps, processing state,
failure message, both retry counters, repository id and name, indexer
name and version, and the optional associated index link — and
`AddUpload` appends exactly that translation to the sequence. -/
theorem addUpload_lossless_translation (d : DbstoreDump) (l : UploadsDataLoader) :
    (l.AddUpload d).uploads = l.uploads ++ [toSharedDump d]
    ∧ (toSharedDump d).ID = d.ID
    ∧ (toSharedDump d).Commit = d.Commit
    ∧ (toSharedDump d).Root = d.Root
    ∧ (toSharedDump d).VisibleAtTip = d.VisibleAtTip
    ∧ (toSharedDump d).UploadedAt = d.UploadedAt
    ∧ (toSharedDump d).State = d.State
    ∧ (toSharedDump d).FailureMessage = d.FailureMessage
    ∧ (toSharedDump d).StartedAt = d.StartedAt
    ∧ (toSharedDump d).FinishedAt = d.FinishedAt
    ∧ (toSharedDump d).ProcessAfter = d.ProcessAfter
    ∧ (toSharedDump d).NumResets = d.NumResets
    ∧ (toSharedDump d).NumFailures = d.NumFailures
    ∧ (toSharedDump d).RepositoryID = d.RepositoryID
    ∧ (toSharedDump d).RepositoryName = d.RepositoryName
    ∧ (toSharedDump d).Indexer = d.Indexer
    ∧ (toSharedDump d).IndexerVersion = d.IndexerVersion
    ∧ (toSharedDump d).AssociatedIndexID = d.AssociatedIndexID :=
  ⟨rfl, rfl, rfl, rfl, rfl, rfl, rfl, rfl, rfl, rfl, rfl, rfl, rfl, rfl, rfl,
    rfl, rfl, rfl⟩

/-- C8 counterexample: `maxIndexes` is not validated anywhere: passing
`-5` to `NewRequestState` leaves construction fully successful (translator
and commit cache installed) and stores `-5` verbatim as the moniker-search
bound. -/
theorem maxIndexes_not_validated_cex :
    (NewRequestState [] exAuth exClient exRepo "c" "p" exGit (-5) 100).maximumIndexesPerMonikerSearch
        = -5
    ∧ ((NewRequestState [] exAuth exClient exRepo "c" "p" exGit (-5) 100).GitTreeTranslator).isSome
        = true
    ∧ ((NewRequestState [] exAuth exClient exRepo "c" "p" exGit (-5) 100).commitCache).isSome
        = true := by
  refine ⟨?_, ?_, ?_⟩ <;> decide

/-- C8 (amended): of the two configuration inputs, only `hunkCacheSize`
is checked — `NewHunkCache` yields a configuration error exactly for
non-positive capacity (an error `NewRequestState` then discards) — while
`maxIndexes` is stored verbatim with no validation, by the setter and
through construction. -/
theorem config_validation_actual (hcs mi : Int) (r : RequestState) :
    ((∃ e, NewHunkCache hcs = Except.error e) ↔ hcs ≤ 0)
    ∧ (r.SetMaximumIndexesPerMonikerSearch mi).maximumIndexesPerMonikerSearch = mi
    ∧ ∀ (uploads : List DbstoreDump) (a : SubRepoPermissionChecker)
        (c : GitserverClient) (repo : Repo) (commit path : String)
        (g : SharedGitserverClient),
        (NewRequestState uploads a c repo commit path g mi hcs).maximumIndexesPerMonikerSearch
          = mi := by
  refine ⟨⟨?_, ?_⟩, rfl, ?_⟩
  · rintro ⟨e, he⟩
    by_contra hpos
    unfold NewHunkCache at he
    rw [if_neg hpos] at he
    exact Except.noConfusion he
  · intro h
    refine ⟨"must provide a positive size", ?_⟩
    unfold NewHunkCache
    rw [if_pos h]
  · intro uploads a c repo commit path g
    exact (newRequestState_fields uploads a c repo commit path g mi hcs).2.2.2.1

/-- C8 amended witness at `hunkCacheSize = 0`, `maxIndexes = -3`. -/
theorem config_validation_actual_witness :
    ((∃ e, NewHunkCache 0 = Except.error e) ↔ (0 : Int) ≤ 0)
    ∧ (RequestState.empty.SetMaximumIndexesPerMonikerSearch (-3)).maximumIndexesPerMonikerSearch
        = -3
    ∧ (NewRequestState [] exAuth exClient exRepo "c" "p" exGit (-3) 0).maximumIndexesPerMonikerSearch
        = -3 := by
  have h := config_validation_actual 0 (-3) RequestState.empty
  exact ⟨h.1, h.2.1, h.2.2 [] exAuth exClient exRepo "c" "p" exGit⟩

/-- C10: `GetCacheUploadsAtIndex` returns a bare dump with no present
flag; every out-of-range access yields the zero dump, and on a cache
whose stored element is itself the zero dump, the in-range access at 0
returns exactly the same value as the out-of-range access at 7 — the two
cases are indistinguishable at this interface. -/
theorem atIndex_zeroValue_indistinguishable :
    (∀ (r : RequestState) (n : Int),
        (n < 0 ∨ (r.dataLoader.uploads.length : Int) ≤ n) →
          r.GetCacheUploadsAtIndex n = SharedDump.zero)
    ∧ (0 : Int) < (zeroRS.dataLoader.uploads.length : Int)
    ∧ zeroRS.GetCacheUploadsAtIndex 0 = SharedDump.zero
    ∧ zeroRS.GetCacheUploadsAtIndex 7 = SharedDump.zero
    ∧ zeroRS.GetCacheUploadsAtIndex 0 = zeroRS.GetCacheUploadsAtIndex 7 := by
  refine ⟨?_, by decide, by decide, by decide, by decide⟩
  intro r n h
  simp only [RequestState.GetCacheUploadsAtIndex]
  rw [if_pos h]

/-- C10 witness: out-of-range access at a concrete negative index. -/
theorem atIndex_zeroValue_indistinguishable_witness :
    zeroRS.GetCacheUploadsAtIndex (-2) = SharedDump.zero :=
  atIndex_zeroValue_indistinguishable.1 zeroRS (-2) (Or.inl (by decide))
